import Mathlib

/-!
Verification of the EventSystem publish/subscribe dispatcher against its
specification.  The development shallowly embeds src/EventSys.hpp:

* event-kind identities (std::type_index tokens) are modelled as Nat;
* callback values (std::function) are opaque to the dispatcher, which never
  inspects them, so they are modelled as Nat identifiers;
* SubscriptionID (std::size_t) is modelled as Nat;
* the unordered maps are modelled as association lists held in an arbitrary
  representation order;
* subscription enum tags of the SubscriptionManager are modelled as Nat.

Each operation mirrors the corresponding member function of EventSys.hpp;
main.cpp contains only an earlier inline snapshot of the same design plus
demo/CLI code, which the specification explicitly places out of scope.
-/

/-- One element of a kind's callback vector: a (callback, subscription-id)
pair, as stored in std::vector<std::pair<OnEventCallback, SubscriptionID>>. -/
abbrev CallbackEntry := Nat × Nat

/-- The dispatch table mCallbackMap:
std::unordered_map<std::type_index, std::vector<CallbackEntry>>,
modelled as an association list from kind token to the
registration-ordered entry list. -/
abbrev CallbackMap := List (Nat × List CallbackEntry)

namespace CallbackMap

/-- mCallbackMap.find(kind): the first mapping entry for the kind, if any. -/
def findKind : CallbackMap → Nat → Option (List CallbackEntry)
  | [], _ => none
  | (k', v) :: rest, k => if k' = k then some v else findKind rest k

/-- The callback vector a lookup for the kind yields, or the empty list when
the kind is absent from the mapping. -/
def entriesOf (m : CallbackMap) (k : Nat) : List CallbackEntry :=
  (findKind m k).getD []

/-- The effect of mCallbackMap[typeid(EventType)] followed by
emplace_back(callback, id): operator[] creates an empty vector when the key
is absent, and the new entry is appended at the back. -/
def appendEntry : CallbackMap → Nat → CallbackEntry → CallbackMap
  | [], k, e => [(k, [e])]
  | (k', v) :: rest, k, e =>
      if k' = k then (k', v ++ [e]) :: rest
      else (k', v) :: appendEntry rest k e

/-- The map-level effect of Subscriber::unsub(ID, eventTypeIdx): find the
kind's vector; erase_if the entries whose id matches (the returned Bool is
the bool conversion of the erased count); if the vector is left empty,
erase the mapping entry for the kind.  When the kind is absent the call
returns false and changes nothing. -/
def unsubFrom : CallbackMap → Nat → Nat → Bool × CallbackMap
  | [], _, _ => (false, [])
  | (k', v) :: rest, subID, k =>
      if k' = k then
        if (v.filter (fun e => e.2 != subID)).isEmpty then
          (v.any (fun e => e.2 == subID), rest)
        else
          (v.any (fun e => e.2 == subID), (k', v.filter (fun e => e.2 != subID)) :: rest)
      else
        ((unsubFrom rest subID k).1, (k', v) :: (unsubFrom rest subID k).2)

/-- All subscription ids recorded anywhere in the table, kind by kind. -/
def tableIDs (m : CallbackMap) : List Nat :=
  (m.map (fun kv => kv.2.map (fun e => e.2))).flatten

/-- The subscription ids recorded under one kind. -/
def idsUnder (m : CallbackMap) (k : Nat) : List Nat :=
  (entriesOf m k).map (fun e => e.2)

/-- The mapping holds each kind token at most once (unordered_map keys are
unique by construction). -/
abbrev KeysNodup (m : CallbackMap) : Prop := (m.map Prod.fst).Nodup

/-- The section-3 invariant of the dispatch table: every key present in the
mapping owns a non-empty callback vector. -/
abbrev NonemptySeqs (m : CallbackMap) : Prop := ∀ kv ∈ m, kv.2 ≠ []

/-- Every occurrence of the id in the table lies under the given kind. -/
abbrev IDOnlyUnder (m : CallbackMap) (id k : Nat) : Prop :=
  ∀ kv ∈ m, ∀ e ∈ kv.2, e.2 = id → kv.1 = k

end CallbackMap

/-- The state of one EventSystem: the dispatch table together with the
Subscriber's id allocator mNextSubscriptionID. -/
structure EventSystem where
  mCallbackMap : CallbackMap
  mNextSubscriptionID : Nat
deriving DecidableEq

namespace EventSystem

/-- A freshly constructed EventSystem: empty table, and the allocator starts
at 1 because INVALID_SUBSCRIPTION_ID is 0. -/
def init : EventSystem := { mCallbackMap := [], mNextSubscriptionID := 1 }

/-- Subscriber::sub<EventType>(callback): append (callback, id) to the
kind's vector (creating it if needed) where id is the value of
mNextSubscriptionID++, and return that id. -/
def sub (s : EventSystem) (kind cb : Nat) : Nat × EventSystem :=
  (s.mNextSubscriptionID,
   { mCallbackMap := CallbackMap.appendEntry s.mCallbackMap kind (cb, s.mNextSubscriptionID),
     mNextSubscriptionID := s.mNextSubscriptionID + 1 })

/-- Subscriber::unsub(ID, eventTypeIdx).  The public templated
unsub<EventType>(ID) forwards here with the type index of EventType, so both
overloads share this model. -/
def unsub (s : EventSystem) (subID kind : Nat) : Bool × EventSystem :=
  ((CallbackMap.unsubFrom s.mCallbackMap subID kind).1,
   { s with mCallbackMap := (CallbackMap.unsubFrom s.mCallbackMap subID kind).2 })

/-- Publisher::pub(e): the callbacks invoked, in order.  The body looks up
the vector for the instance's kind and calls the first component of every
pair; an absent kind invokes nothing. -/
def pub (s : EventSystem) (kind : Nat) : List Nat :=
  (CallbackMap.entriesOf s.mCallbackMap kind).map (fun e => e.1)

/-- Publisher::pub(e) with callback re-entrancy made explicit: the body of
pub only reads the table (a const find and a loop over the found vector), so
the invoked callbacks, modelled by the action act, are the only channel
through which the call can change the system state. -/
def pubRun (s : EventSystem) (kind : Nat) (act : Nat → EventSystem → EventSystem) :
    List Nat × EventSystem :=
  match CallbackMap.findKind s.mCallbackMap kind with
  | none => ([], s)
  | some v => (v.map (fun e => e.1), v.foldl (fun acc e => act e.1 acc) s)

end EventSystem

/-- Run a sequence of Subscriber::sub calls, each given as a
(kind, callback) pair, collecting the returned subscription ids in
allocation order. -/
def runSubs : List (Nat × Nat) → EventSystem → List Nat × EventSystem
  | [], s => ([], s)
  | (k, cb) :: rest, s =>
      ((s.sub k cb).1 :: (runSubs rest (s.sub k cb).2).1,
       (runSubs rest (s.sub k cb).2).2)

/-- One Subscriber operation of EventSys.hpp: a sub call (which allocates an
id) or an unsub call. -/
inductive EventOp where
  | subscribe (kind cb : Nat)
  | unsubscribe (subID kind : Nat)
deriving DecidableEq

/-- Run a mixed sequence of Subscriber::sub and Subscriber::unsub calls,
collecting the ids returned by the sub calls in allocation order. -/
def runOps : List EventOp → EventSystem → List Nat × EventSystem
  | [], s => ([], s)
  | (EventOp.subscribe k cb) :: rest, s =>
      ((s.sub k cb).1 :: (runOps rest (s.sub k cb).2).1,
       (runOps rest (s.sub k cb).2).2)
  | (EventOp.unsubscribe subID k) :: rest, s =>
      ((runOps rest (s.unsub subID k).2).1,
       (runOps rest (s.unsub subID k).2).2)

/-- The SubscriptionManager's registry mSubscriptions:
std::unordered_map<Enum, std::pair<std::type_index, SubscriptionID>>,
modelled as an association list of (tag, kind, id) records. -/
abbrev TagRegistry := List (Nat × Nat × Nat)

namespace SubscriptionManager

/-- mSubscriptions.find(tag): the recorded (kind, id) for the tag, if any. -/
def lookupTag : TagRegistry → Nat → Option (Nat × Nat)
  | [], _ => none
  | (t, k, id) :: rest, tag => if t = tag then some (k, id) else lookupTag rest tag

/-- mSubscriptions.erase(it) for the entry found for the tag: remove the
first record carrying the tag. -/
def eraseTag : TagRegistry → Nat → TagRegistry
  | [], _ => []
  | (t, k, id) :: rest, tag =>
      if t = tag then rest else (t, k, id) :: eraseTag rest tag

/-- SubscriptionManager::sub<EventType>(tag, callback): refuse (returning
false, with no mutation) when the tag is already recorded; otherwise
delegate to the underlying Subscriber's sub, record (kind, id) against the
tag, and return true. -/
def sub (reg : TagRegistry) (es : EventSystem) (tag kind cb : Nat) :
    Bool × TagRegistry × EventSystem :=
  match lookupTag reg tag with
  | some _ => (false, reg, es)
  | none =>
      (true, reg ++ [(tag, kind, (es.sub kind cb).1)], (es.sub kind cb).2)

/-- SubscriptionManager::unsub(tag): when the tag is unknown return false;
otherwise delegate to the underlying Subscriber's unsub with the recorded
(kind, id), erase the tag's record only when that removal succeeded, and
return the removal's verdict. -/
def unsub (reg : TagRegistry) (es : EventSystem) (tag : Nat) :
    Bool × TagRegistry × EventSystem :=
  match lookupTag reg tag with
  | none => (false, reg, es)
  | some (k, id) =>
      if (es.unsub id k).1 then (true, eraseTag reg tag, (es.unsub id k).2)
      else (false, reg, (es.unsub id k).2)

/-- SubscriptionManager::ubsubFromAll() (source spelling): unsubscribe every
recorded (kind, id) from the underlying system, then clear the registry.
The destructor invokes exactly this. -/
def ubsubFromAll (reg : TagRegistry) (es : EventSystem) : TagRegistry × EventSystem :=
  ([], reg.foldl (fun acc r => (acc.unsub r.2.2 r.2.1).2) es)

end SubscriptionManager

/-- An event instance as the dispatcher and Event::unpack see it: its
dynamic kind token, plus opaque payload (for example EventType1 carries
coordinates). -/
structure EventObj where
  kind : Nat
  payload : Nat
deriving DecidableEq

/-- Event::unpack<EventType>() in the checked (non-NDEBUG) build:
dynamic_cast<EventType const*> yields a non-null pointer exactly when the
object's dynamic kind is the requested one, and a null result trips the
assert, modelled as none; on success the very same instance is returned. -/
def EventObj.unpack (e : EventObj) (K : Nat) : Option EventObj :=
  if e.kind = K then some e else none

/-! ### Basic lemmas about the dispatch-table operations -/

namespace CallbackMap

theorem entriesOf_nil (k : Nat) : entriesOf [] k = [] := rfl

theorem entriesOf_cons (k' : Nat) (v : List CallbackEntry) (rest : CallbackMap) (k : Nat) :
    entriesOf ((k', v) :: rest) k = if k' = k then v else entriesOf rest k := by
  by_cases h : k' = k <;> simp [entriesOf, findKind, h]

theorem findKind_eq_none_of_not_mem (m : CallbackMap) (k : Nat)
    (h : k ∉ m.map Prod.fst) : findKind m k = none := by
  induction m with
  | nil => rfl
  | cons hd tl ih =>
      obtain ⟨k', v⟩ := hd
      simp only [List.map_cons, List.mem_cons] at h
      push_neg at h
      have h' : ¬ k' = k := fun hh => h.1 hh.symm
      simp only [findKind, if_neg h']
      exact ih h.2

theorem entriesOf_eq_nil_of_not_mem (m : CallbackMap) (k : Nat)
    (h : k ∉ m.map Prod.fst) : entriesOf m k = [] := by
  simp [entriesOf, findKind_eq_none_of_not_mem m k h]

theorem mem_of_findKind_eq_some (m : CallbackMap) (k : Nat) (v : List CallbackEntry)
    (h : findKind m k = some v) : (k, v) ∈ m := by
  induction m with
  | nil => simp [findKind] at h
  | cons hd tl ih =>
      obtain ⟨k', v'⟩ := hd
      by_cases hk : k' = k
      · subst hk
        simp [findKind] at h
        simp [h]
      · simp only [findKind, if_neg hk] at h
        exact List.mem_cons_of_mem _ (ih h)

theorem entriesOf_appendEntry (m : CallbackMap) (k : Nat) (e : CallbackEntry) (kk : Nat) :
    entriesOf (appendEntry m k e) kk =
      if kk = k then entriesOf m k ++ [e] else entriesOf m kk := by
  induction m with
  | nil =>
      by_cases h : kk = k
      · subst h; simp [appendEntry, entriesOf_cons, entriesOf_nil]
      · have h' : ¬ k = kk := fun hh => h hh.symm
        simp [appendEntry, entriesOf_cons, entriesOf_nil, h, h']
  | cons hd tl ih =>
      obtain ⟨k', v⟩ := hd
      by_cases h1 : k' = k
      · subst h1
        by_cases h2 : kk = k'
        · subst h2; simp [appendEntry, entriesOf_cons]
        · have h2' : ¬ k' = kk := fun hh => h2 hh.symm
          simp [appendEntry, entriesOf_cons, h2, h2']
      · by_cases h2 : kk = k'
        · subst h2
          have h1' : ¬ kk = k := fun hh => h1 hh
          simp [appendEntry, h1, h1', entriesOf_cons]
        · have h2' : ¬ k' = kk := fun hh => h2 hh.symm
          simp [appendEntry, h1, h2', entriesOf_cons, ih]

theorem unsubFrom_fst (m : CallbackMap) (subID k : Nat) :
    (unsubFrom m subID k).1 = (entriesOf m k).any (fun e => e.2 == subID) := by
  induction m with
  | nil => rfl
  | cons hd tl ih =>
      obtain ⟨k', v⟩ := hd
      by_cases h : k' = k
      · subst h
        by_cases h2 : (v.filter (fun e => e.2 != subID)).isEmpty <;>
          simp [unsubFrom, h2, entriesOf_cons]
      · simp [unsubFrom, h, entriesOf_cons, ih]

theorem entriesOf_unsubFrom (m : CallbackMap) (subID k : Nat) :
    KeysNodup m → ∀ kk,
      entriesOf (unsubFrom m subID k).2 kk =
        if kk = k then (entriesOf m k).filter (fun e => e.2 != subID)
        else entriesOf m kk := by
  induction m with
  | nil =>
      intro _ kk
      by_cases h : kk = k <;> simp [unsubFrom, entriesOf_nil, h]
  | cons hd tl ih =>
      obtain ⟨k', v⟩ := hd
      intro hkeys kk
      have hkeys2 : KeysNodup tl := by
        have h := hkeys
        simp only [KeysNodup, List.map_cons, List.nodup_cons] at h
        exact h.2
      have hknotin : k' ∉ tl.map Prod.fst := by
        have h := hkeys
        simp only [KeysNodup, List.map_cons, List.nodup_cons] at h
        exact h.1
      by_cases h1 : k' = k
      · subst h1
        by_cases hemp : (v.filter (fun e => e.2 != subID)).isEmpty
        · have hfe : v.filter (fun e => e.2 != subID) = [] := by
            simpa using hemp
          by_cases h2 : kk = k'
          · subst h2
            simp [unsubFrom, hemp, entriesOf_cons,
              entriesOf_eq_nil_of_not_mem tl kk hknotin, hfe]
          · have h2' : ¬ k' = kk := fun hh => h2 hh.symm
            simp [unsubFrom, hemp, entriesOf_cons, h2, h2']
        · by_cases h2 : kk = k'
          · subst h2
            simp [unsubFrom, hemp, entriesOf_cons]
          · have h2' : ¬ k' = kk := fun hh => h2 hh.symm
            simp [unsubFrom, hemp, entriesOf_cons, h2, h2']
      · by_cases h2 : kk = k'
        · subst h2
          have h1' : ¬ kk = k := h1
          simp [unsubFrom, h1, h1', entriesOf_cons]
        · have h2' : ¬ k' = kk := fun hh => h2 hh.symm
          simp [unsubFrom, h1, h2', entriesOf_cons, ih hkeys2 kk]

theorem unsubFrom_eq_of_not_mem (m : CallbackMap) (subID k : Nat) :
    NonemptySeqs m → subID ∉ idsUnder m k → unsubFrom m subID k = (false, m) := by
  induction m with
  | nil => intro _ _; rfl
  | cons hd tl ih =>
      obtain ⟨k', v⟩ := hd
      intro hne hmem
      by_cases h1 : k' = k
      · subst h1
        have hv : subID ∉ v.map (fun e => e.2) := by
          simpa [idsUnder, entriesOf_cons] using hmem
        have hfe : v.filter (fun e => e.2 != subID) = v := by
          apply List.filter_eq_self.mpr
          intro e he
          simp only [bne_iff_ne, ne_eq, decide_eq_true_eq]
          intro heq
          exact hv (List.mem_map.mpr ⟨e, he, heq⟩)
        have hvne : v ≠ [] := hne (k', v) (List.mem_cons_self _ _)
        have hemp : (v.filter (fun e => e.2 != subID)).isEmpty = false := by
          rw [hfe]
          simpa [List.isEmpty_iff] using hvne
        have hany : v.any (fun e => e.2 == subID) = false := by
          simp only [List.any_eq_false, beq_iff_eq]
          intro e he heq
          exact hv (List.mem_map.mpr ⟨e, he, heq⟩)
        simp [unsubFrom, hemp, hfe, hany]
        exact hvne
      · have h2 : subID ∉ idsUnder tl k := by
          simpa [idsUnder, entriesOf_cons, h1] using hmem
        have hr := ih (fun kv hkv => hne kv (List.mem_cons_of_mem _ hkv)) h2
        simp [unsubFrom, h1, hr]

theorem tableIDs_cons (k' : Nat) (v : List CallbackEntry) (rest : CallbackMap) :
    tableIDs ((k', v) :: rest) = v.map (fun e => e.2) ++ tableIDs rest := by
  simp [tableIDs]

theorem mem_tableIDs_of_mem_idsUnder (m : CallbackMap) (k : Nat) :
    ∀ x ∈ idsUnder m k, x ∈ tableIDs m := by
  induction m with
  | nil => simp [idsUnder, entriesOf_nil]
  | cons hd tl ih =>
      obtain ⟨k', v⟩ := hd
      intro x hx
      rw [tableIDs_cons]
      by_cases h : k' = k
      · subst h
        have hx' : x ∈ v.map (fun e => e.2) := by
          simpa [idsUnder, entriesOf_cons] using hx
        exact List.mem_append_left _ hx'
      · have hx' : x ∈ idsUnder tl k := by
          simpa [idsUnder, entriesOf_cons, h] using hx
        exact List.mem_append_right _ (ih x hx')

theorem not_mem_idsUnder_of_mem_other (m : CallbackMap) (k k' subID : Nat) :
    (tableIDs m).Nodup → k' ≠ k → subID ∈ idsUnder m k' → subID ∉ idsUnder m k := by
  induction m with
  | nil => intro _ _ h; simp [idsUnder, entriesOf_nil] at h
  | cons hd tl ih =>
      obtain ⟨k1, v⟩ := hd
      intro huniq hkk hmem
      rw [tableIDs_cons, List.nodup_append] at huniq
      obtain ⟨hv, htl, hdisj⟩ := huniq
      by_cases h1 : k1 = k'
      · subst h1
        have hmv : subID ∈ v.map (fun e => e.2) := by
          simpa [idsUnder, entriesOf_cons] using hmem
        have h2 : ¬ k1 = k := fun hh => hkk hh
        intro hcon
        have hck : subID ∈ idsUnder tl k := by
          simpa [idsUnder, entriesOf_cons, h2] using hcon
        exact hdisj hmv (mem_tableIDs_of_mem_idsUnder tl k subID hck)
      · by_cases h2 : k1 = k
        · subst h2
          intro hcon
          have hmv : subID ∈ v.map (fun e => e.2) := by
            simpa [idsUnder, entriesOf_cons] using hcon
          have hck : subID ∈ idsUnder tl k' := by
            simpa [idsUnder, entriesOf_cons, h1] using hmem
          exact hdisj hmv (mem_tableIDs_of_mem_idsUnder tl k' subID hck)
        · have hmem' : subID ∈ idsUnder tl k' := by
            simpa [idsUnder, entriesOf_cons, h1] using hmem
          have hres := ih htl hkk hmem'
          intro hcon
          exact hres (by simpa [idsUnder, entriesOf_cons, h2] using hcon)

theorem mem_unsubFrom_snd (m : CallbackMap) (subID k : Nat) :
    ∀ kv ∈ (unsubFrom m subID k).2, ∃ v, (kv.1, v) ∈ m ∧ kv.2 ⊆ v := by
  induction m with
  | nil => simp [unsubFrom]
  | cons hd tl ih =>
      obtain ⟨k', v⟩ := hd
      intro kv hkv
      by_cases h1 : k' = k
      · subst h1
        by_cases hemp : (v.filter (fun e => e.2 != subID)).isEmpty
        · simp only [unsubFrom, if_pos rfl, hemp, if_true] at hkv
          exact ⟨kv.2, List.mem_cons_of_mem _ (by simpa using hkv), List.Subset.refl _⟩
        · simp only [unsubFrom, if_pos rfl, hemp, if_false] at hkv
          rcases List.mem_cons.mp hkv with hh | hh
          · subst hh
            exact ⟨v, List.mem_cons_self _ _, by
              intro a ha
              exact List.mem_of_mem_filter ha⟩
          · exact ⟨kv.2, List.mem_cons_of_mem _ (by simpa using hh), List.Subset.refl _⟩
      · simp only [unsubFrom, if_neg h1, List.mem_cons] at hkv
        rcases hkv with hh | hh
        · subst hh
          exact ⟨v, List.mem_cons_self _ _, List.Subset.refl _⟩
        · obtain ⟨vv, hvv, hsub⟩ := ih kv hh
          exact ⟨vv, List.mem_cons_of_mem _ hvv, hsub⟩

theorem unsubFrom_no_new_ids (m : CallbackMap) (subID k j : Nat)
    (h : ∀ kv ∈ m, ∀ e ∈ kv.2, e.2 ≠ j) :
    ∀ kv ∈ (unsubFrom m subID k).2, ∀ e ∈ kv.2, e.2 ≠ j := by
  intro kv hkv e he
  obtain ⟨v, hv, hsub⟩ := mem_unsubFrom_snd m subID k kv hkv
  exact h (kv.1, v) hv e (hsub he)

theorem IDOnlyUnder_unsubFrom (m : CallbackMap) (subID k j kj : Nat)
    (h : IDOnlyUnder m j kj) : IDOnlyUnder (unsubFrom m subID k).2 j kj := by
  intro kv hkv e he heq
  obtain ⟨v, hv, hsub⟩ := mem_unsubFrom_snd m subID k kv hkv
  exact h (kv.1, v) hv e (hsub he) heq

theorem unsubFrom_keys_sublist (m : CallbackMap) (subID k : Nat) :
    ((unsubFrom m subID k).2.map Prod.fst).Sublist (m.map Prod.fst) := by
  induction m with
  | nil => simp [unsubFrom]
  | cons hd tl ih =>
      obtain ⟨k', v⟩ := hd
      by_cases h1 : k' = k
      · subst h1
        by_cases hemp : (v.filter (fun e => e.2 != subID)).isEmpty
        · simp only [unsubFrom, if_pos rfl, hemp, if_true, List.map_cons]
          exact (List.Sublist.refl _).cons _
        · simp only [unsubFrom, if_pos rfl, hemp, if_false, List.map_cons]
          exact (List.Sublist.refl _).cons₂ _
      · simp only [unsubFrom, if_neg h1, List.map_cons]
        exact ih.cons₂ _

theorem KeysNodup_unsubFrom (m : CallbackMap) (subID k : Nat)
    (h : KeysNodup m) : KeysNodup (unsubFrom m subID k).2 :=
  List.Nodup.sublist (unsubFrom_keys_sublist m subID k) h

theorem NonemptySeqs_appendEntry (m : CallbackMap) (k : Nat) (e : CallbackEntry) :
    NonemptySeqs m → NonemptySeqs (appendEntry m k e) := by
  induction m with
  | nil =>
      intro _ kv hkv
      simp [appendEntry] at hkv
      subst hkv
      simp
  | cons hd tl ih =>
      obtain ⟨k', v⟩ := hd
      intro h kv hkv
      have htl : NonemptySeqs tl := fun kv2 h2 => h kv2 (List.mem_cons_of_mem _ h2)
      by_cases h1 : k' = k
      · subst h1
        simp only [appendEntry, if_pos rfl] at hkv
        rcases List.mem_cons.mp hkv with hh | hh
        · subst hh; simp
        · exact h kv (List.mem_cons_of_mem _ hh)
      · simp only [appendEntry, if_neg h1] at hkv
        rcases List.mem_cons.mp hkv with hh | hh
        · subst hh
          exact h (k', v) (List.mem_cons_self _ _)
        · exact ih htl kv hh

theorem NonemptySeqs_unsubFrom (m : CallbackMap) (subID k : Nat) :
    NonemptySeqs m → NonemptySeqs (unsubFrom m subID k).2 := by
  induction m with
  | nil => intro h; simp [unsubFrom, NonemptySeqs]
  | cons hd tl ih =>
      obtain ⟨k', v⟩ := hd
      intro h
      have htl : NonemptySeqs tl := fun kv2 h2 => h kv2 (List.mem_cons_of_mem _ h2)
      by_cases h1 : k' = k
      · subst h1
        by_cases hemp : (v.filter (fun e => e.2 != subID)).isEmpty
        · simpa [unsubFrom, hemp] using htl
        · intro kv hkv
          simp only [unsubFrom, if_pos rfl, hemp, if_false] at hkv
          rcases List.mem_cons.mp hkv with hh | hh
          · subst hh
            simpa [List.isEmpty_iff] using hemp
          · exact htl kv hh
      · intro kv hkv
        simp only [unsubFrom, if_neg h1] at hkv
        rcases List.mem_cons.mp hkv with hh | hh
        · subst hh
          exact h (k', v) (List.mem_cons_self _ _)
        · exact ih htl kv hh

theorem no_id_of_not_key (m : CallbackMap) (subID k : Nat)
    (hnk : k ∉ m.map Prod.fst) (honly : IDOnlyUnder m subID k) :
    ∀ kv ∈ m, ∀ e ∈ kv.2, e.2 ≠ subID := by
  intro kv hkv e he heq
  have hk1 : kv.1 = k := honly kv hkv e he heq
  exact hnk (hk1 ▸ List.mem_map.mpr ⟨kv, hkv, rfl⟩)

theorem unsubFrom_removes_id (m : CallbackMap) (subID k : Nat) :
    KeysNodup m → IDOnlyUnder m subID k →
    ∀ kv ∈ (unsubFrom m subID k).2, ∀ e ∈ kv.2, e.2 ≠ subID := by
  induction m with
  | nil => intro _ _ kv hkv; simp [unsubFrom] at hkv
  | cons hd tl ih =>
      obtain ⟨k', v⟩ := hd
      intro hkeys honly
      have hkeys2 : KeysNodup tl := by
        have h := hkeys
        simp only [KeysNodup, List.map_cons, List.nodup_cons] at h
        exact h.2
      have hknotin : k' ∉ tl.map Prod.fst := by
        have h := hkeys
        simp only [KeysNodup, List.map_cons, List.nodup_cons] at h
        exact h.1
      have honlytl : IDOnlyUnder tl subID k :=
        fun kv2 h2 => honly kv2 (List.mem_cons_of_mem _ h2)
      by_cases h1 : k' = k
      · subst h1
        have hrest : ∀ kv ∈ tl, ∀ e ∈ kv.2, e.2 ≠ subID :=
          no_id_of_not_key tl subID k' hknotin honlytl
        by_cases hemp : (v.filter (fun e => e.2 != subID)).isEmpty
        · intro kv hkv
          simp only [unsubFrom, if_pos rfl, hemp, if_true] at hkv
          exact hrest kv hkv
        · intro kv hkv
          simp only [unsubFrom, if_pos rfl, hemp, if_false] at hkv
          rcases List.mem_cons.mp hkv with hh | hh
          · subst hh
            intro e he heq
            have hmem := List.mem_filter.mp he
            have : (e.2 != subID) = true := hmem.2
            simp only [bne_iff_ne, ne_eq] at this
            exact this heq
          · exact hrest kv hh
      · intro kv hkv
        simp only [unsubFrom, if_neg h1] at hkv
        rcases List.mem_cons.mp hkv with hh | hh
        · subst hh
          intro e he heq
          exact h1 (honly (k', v) (List.mem_cons_self _ _) e he heq)
        · exact ih hkeys2 honlytl kv hh

theorem unsubFrom_fst_true_iff (m : CallbackMap) (subID k : Nat) :
    (unsubFrom m subID k).1 = true ↔ subID ∈ idsUnder m k := by
  rw [unsubFrom_fst]
  simp only [List.any_eq_true, beq_iff_eq, idsUnder, List.mem_map]

end CallbackMap

/-! ### Lemmas about the EventSystem operations -/

namespace EventSystem

theorem unsub_mCallbackMap (s : EventSystem) (subID kind : Nat) :
    ((s.unsub subID kind).2).mCallbackMap =
      (CallbackMap.unsubFrom s.mCallbackMap subID kind).2 := rfl

theorem unsub_mNextSubscriptionID (s : EventSystem) (subID kind : Nat) :
    ((s.unsub subID kind).2).mNextSubscriptionID = s.mNextSubscriptionID := rfl

end EventSystem

theorem runSubs_fst (ops : List (Nat × Nat)) :
    ∀ s : EventSystem, (runSubs ops s).1 = List.range' s.mNextSubscriptionID ops.length := by
  induction ops with
  | nil => intro s; rfl
  | cons hd tl ih =>
      obtain ⟨k, cb⟩ := hd
      intro s
      simp [runSubs, EventSystem.sub, ih, List.range'_succ]

theorem pub_runSubs (ops : List (Nat × Nat)) (k : Nat) :
    ∀ s : EventSystem,
      EventSystem.pub (runSubs ops s).2 k
        = EventSystem.pub s k ++ (ops.filter (fun p => p.1 == k)).map (fun p => p.2) := by
  induction ops with
  | nil => intro s; simp [runSubs]
  | cons hd tl ih =>
      obtain ⟨k', cb⟩ := hd
      intro s
      have hpub : EventSystem.pub (s.sub k' cb).2 k
          = EventSystem.pub s k ++ (if k = k' then [cb] else []) := by
        by_cases h : k = k' <;>
          simp [EventSystem.pub, EventSystem.sub, CallbackMap.entriesOf_appendEntry, h]
      by_cases h : k' = k
      · subst h
        simp [runSubs, ih, hpub]
      · have h' : ¬ k = k' := fun hh => h hh.symm
        simp [runSubs, ih, hpub, h, h']

/-! ### Lemmas about the SubscriptionManager operations -/

namespace SubscriptionManager

theorem lookupTag_eq_none_of_not_mem (reg : TagRegistry) (tag : Nat)
    (h : tag ∉ reg.map (fun r => r.1)) : lookupTag reg tag = none := by
  induction reg with
  | nil => rfl
  | cons hd tl ih =>
      obtain ⟨t, k, id⟩ := hd
      simp only [List.map_cons, List.mem_cons] at h
      push_neg at h
      have h' : ¬ t = tag := fun hh => h.1 hh.symm
      simp only [lookupTag, if_neg h']
      exact ih h.2

theorem lookupTag_append_some (reg : TagRegistry) (tag k id : Nat)
    (h : lookupTag reg tag = none) :
    lookupTag (reg ++ [(tag, k, id)]) tag = some (k, id) := by
  induction reg with
  | nil => simp [lookupTag]
  | cons hd tl ih =>
      obtain ⟨t, k', id'⟩ := hd
      by_cases h1 : t = tag
      · simp [lookupTag, h1] at h
      · simp only [lookupTag, if_neg h1] at h
        simpa [lookupTag, h1] using ih h

theorem lookupTag_eraseTag_self (reg : TagRegistry) (tag : Nat)
    (h : (reg.map (fun r => r.1)).Nodup) :
    lookupTag (eraseTag reg tag) tag = none := by
  induction reg with
  | nil => rfl
  | cons hd tl ih =>
      obtain ⟨t, k, id⟩ := hd
      simp only [List.map_cons, List.nodup_cons] at h
      by_cases h1 : t = tag
      · subst h1
        simp only [eraseTag, if_pos rfl]
        exact lookupTag_eq_none_of_not_mem tl t h.1
      · simp only [eraseTag, if_neg h1, lookupTag, if_neg h1]
        exact ih h.2

end SubscriptionManager

/-! ### Lemmas about the bulk teardown fold of ubsubFromAll -/

namespace SubscriptionManager

theorem foldUnsub_no_new_ids (reg : TagRegistry) (j : Nat) :
    ∀ es : EventSystem,
      (∀ kv ∈ es.mCallbackMap, ∀ e ∈ kv.2, e.2 ≠ j) →
      ∀ kv ∈ (reg.foldl (fun acc r => (acc.unsub r.2.2 r.2.1).2) es).mCallbackMap,
        ∀ e ∈ kv.2, e.2 ≠ j := by
  induction reg with
  | nil => intro es h; simpa using h
  | cons hd tl ih =>
      intro es h
      rw [List.foldl_cons]
      exact ih _ (by
        rw [EventSystem.unsub_mCallbackMap]
        exact CallbackMap.unsubFrom_no_new_ids es.mCallbackMap hd.2.2 hd.2.1 j h)

theorem foldUnsub_KeysNodup (reg : TagRegistry) :
    ∀ es : EventSystem, CallbackMap.KeysNodup es.mCallbackMap →
      CallbackMap.KeysNodup
        (reg.foldl (fun acc r => (acc.unsub r.2.2 r.2.1).2) es).mCallbackMap := by
  induction reg with
  | nil => intro es h; simpa using h
  | cons hd tl ih =>
      intro es h
      rw [List.foldl_cons]
      exact ih _ (by
        rw [EventSystem.unsub_mCallbackMap]
        exact CallbackMap.KeysNodup_unsubFrom es.mCallbackMap hd.2.2 hd.2.1 h)

theorem foldUnsub_removes_all (reg : TagRegistry) :
    ∀ es : EventSystem,
      CallbackMap.KeysNodup es.mCallbackMap →
      (∀ r ∈ reg, CallbackMap.IDOnlyUnder es.mCallbackMap r.2.2 r.2.1) →
      ∀ r ∈ reg,
        ∀ kv ∈ (reg.foldl (fun acc r => (acc.unsub r.2.2 r.2.1).2) es).mCallbackMap,
          ∀ e ∈ kv.2, e.2 ≠ r.2.2 := by
  induction reg with
  | nil => intro es _ _ r hr; simp at hr
  | cons hd tl ih =>
      intro es hkeys hcons r hr
      rw [List.foldl_cons]
      have hkeys1 : CallbackMap.KeysNodup ((es.unsub hd.2.2 hd.2.1).2).mCallbackMap := by
        rw [EventSystem.unsub_mCallbackMap]
        exact CallbackMap.KeysNodup_unsubFrom es.mCallbackMap hd.2.2 hd.2.1 hkeys
      have hcons1 : ∀ r2 ∈ tl,
          CallbackMap.IDOnlyUnder ((es.unsub hd.2.2 hd.2.1).2).mCallbackMap r2.2.2 r2.2.1 := by
        intro r2 hr2
        rw [EventSystem.unsub_mCallbackMap]
        exact CallbackMap.IDOnlyUnder_unsubFrom es.mCallbackMap hd.2.2 hd.2.1 r2.2.2 r2.2.1
          (hcons r2 (List.mem_cons_of_mem _ hr2))
      rcases List.mem_cons.mp hr with hh | hh
      · subst hh
        apply foldUnsub_no_new_ids tl r.2.2 _
        rw [EventSystem.unsub_mCallbackMap]
        exact CallbackMap.unsubFrom_removes_id es.mCallbackMap r.2.2 r.2.1 hkeys
          (hcons r (List.mem_cons_self _ _))
      · exact ih _ hkeys1 hcons1 r hh

end SubscriptionManager

/-- Appending an entry for a kind already in the mapping leaves the key list
unchanged. -/
theorem CallbackMap.keys_appendEntry_of_mem (m : CallbackMap) (k : Nat)
    (e : CallbackEntry) (h : k ∈ m.map Prod.fst) :
    (CallbackMap.appendEntry m k e).map Prod.fst = m.map Prod.fst := by
  induction m with
  | nil => simp at h
  | cons hd tl ih =>
      obtain ⟨k', v⟩ := hd
      by_cases h1 : k' = k
      · subst h1; simp [CallbackMap.appendEntry]
      · have h' : k ∈ k' :: tl.map Prod.fst := by
          rw [List.map_cons] at h; exact h
        have h2 : k ∈ tl.map Prod.fst := by
          rcases List.mem_cons.mp h' with hh | hh
          · exact absurd hh.symm h1
          · exact hh
        simp [CallbackMap.appendEntry, h1, ih h2]

/-- Appending an entry for a fresh kind appends that key at the back. -/
theorem CallbackMap.keys_appendEntry_of_not_mem (m : CallbackMap) (k : Nat)
    (e : CallbackEntry) (h : k ∉ m.map Prod.fst) :
    (CallbackMap.appendEntry m k e).map Prod.fst = m.map Prod.fst ++ [k] := by
  induction m with
  | nil => simp [CallbackMap.appendEntry]
  | cons hd tl ih =>
      obtain ⟨k', v⟩ := hd
      simp only [List.map_cons, List.mem_cons] at h
      push_neg at h
      have h1 : ¬ k' = k := fun hh => h.1 hh.symm
      simp [CallbackMap.appendEntry, h1, ih h.2]

/-- The unordered_map key-uniqueness survives operator[] plus emplace_back. -/
theorem CallbackMap.KeysNodup_appendEntry (m : CallbackMap) (k : Nat)
    (e : CallbackEntry) (h : CallbackMap.KeysNodup m) :
    CallbackMap.KeysNodup (CallbackMap.appendEntry m k e) := by
  by_cases hm : k ∈ m.map Prod.fst
  · rw [CallbackMap.KeysNodup, CallbackMap.keys_appendEntry_of_mem m k e hm]
    exact h
  · rw [CallbackMap.KeysNodup, CallbackMap.keys_appendEntry_of_not_mem m k e hm]
    rw [List.nodup_append]
    exact ⟨h, List.nodup_singleton _, by
      intro x hx hk
      rcases List.mem_singleton.mp hk with rfl
      exact hm hx⟩

/-- Appending an entry adds exactly its id to the table ids, up to order. -/
theorem CallbackMap.tableIDs_appendEntry_perm (m : CallbackMap) (k : Nat)
    (e : CallbackEntry) :
    List.Perm (CallbackMap.tableIDs (CallbackMap.appendEntry m k e))
      (CallbackMap.tableIDs m ++ [e.2]) := by
  induction m with
  | nil => simp [CallbackMap.appendEntry, CallbackMap.tableIDs]
  | cons hd tl ih =>
      obtain ⟨k', v⟩ := hd
      by_cases h1 : k' = k
      · subst h1
        have hred : CallbackMap.appendEntry ((k', v) :: tl) k' e = (k', v ++ [e]) :: tl := by
          simp [CallbackMap.appendEntry]
        rw [hred]
        simp only [CallbackMap.tableIDs_cons, List.map_append, List.map_cons, List.map_nil,
          List.append_assoc]
        exact List.Perm.append_left _ List.perm_append_comm
      · simp only [CallbackMap.appendEntry, if_neg h1, CallbackMap.tableIDs_cons]
        rw [List.append_assoc]
        exact List.Perm.append_left _ ih

/-- A fresh id keeps the table ids duplicate-free across a sub. -/
theorem CallbackMap.tableIDs_appendEntry_nodup (m : CallbackMap) (k : Nat)
    (e : CallbackEntry) (h : (CallbackMap.tableIDs m).Nodup)
    (hfresh : e.2 ∉ CallbackMap.tableIDs m) :
    (CallbackMap.tableIDs (CallbackMap.appendEntry m k e)).Nodup := by
  apply (CallbackMap.tableIDs_appendEntry_perm m k e).nodup_iff.mpr
  rw [List.nodup_append]
  exact ⟨h, List.nodup_singleton _, by
    intro x hx hk
    rcases List.mem_singleton.mp hk with rfl
    exact hfresh hx⟩

/-- unsub only ever removes ids from the table. -/
theorem CallbackMap.tableIDs_unsubFrom_sublist (m : CallbackMap) (subID k : Nat) :
    (CallbackMap.tableIDs (CallbackMap.unsubFrom m subID k).2).Sublist
      (CallbackMap.tableIDs m) := by
  induction m with
  | nil => simp [CallbackMap.unsubFrom, CallbackMap.tableIDs]
  | cons hd tl ih =>
      obtain ⟨k', v⟩ := hd
      by_cases h1 : k' = k
      · subst h1
        by_cases hemp : (v.filter (fun e => e.2 != subID)).isEmpty
        · simp only [CallbackMap.unsubFrom, if_pos rfl, hemp, if_true,
            CallbackMap.tableIDs_cons]
          exact List.sublist_append_right _ _
        · simp only [CallbackMap.unsubFrom, if_pos rfl, hemp, if_false,
            CallbackMap.tableIDs_cons]
          exact List.Sublist.append ((List.filter_sublist _).map _) (List.Sublist.refl _)
      · simp only [CallbackMap.unsubFrom, if_neg h1, CallbackMap.tableIDs_cons]
        exact List.Sublist.append (List.Sublist.refl _) ih

/-- Preservation of table well-formedness along any mixed call sequence:
keys stay unique, sequences stay non-empty, table ids stay globally unique
and strictly below the allocator. -/
theorem runOps_state_wf (ops : List EventOp) :
    ∀ s : EventSystem,
      CallbackMap.KeysNodup s.mCallbackMap →
      CallbackMap.NonemptySeqs s.mCallbackMap →
      (CallbackMap.tableIDs s.mCallbackMap).Nodup →
      (∀ id ∈ CallbackMap.tableIDs s.mCallbackMap, id < s.mNextSubscriptionID) →
      CallbackMap.KeysNodup ((runOps ops s).2).mCallbackMap ∧
      CallbackMap.NonemptySeqs ((runOps ops s).2).mCallbackMap ∧
      (CallbackMap.tableIDs ((runOps ops s).2).mCallbackMap).Nodup ∧
      (∀ id ∈ CallbackMap.tableIDs ((runOps ops s).2).mCallbackMap,
        id < ((runOps ops s).2).mNextSubscriptionID) := by
  induction ops with
  | nil => intro s h1 h2 h3 h4; exact ⟨h1, h2, h3, h4⟩
  | cons hd tl ih =>
      cases hd with
      | subscribe k cb =>
          intro s h1 h2 h3 h4
          show _ ∧ _ ∧ _ ∧ _
          apply ih (s.sub k cb).2
          · exact CallbackMap.KeysNodup_appendEntry _ k _ h1
          · exact CallbackMap.NonemptySeqs_appendEntry _ k _ h2
          · apply CallbackMap.tableIDs_appendEntry_nodup _ k _ h3
            intro hmem
            exact absurd (h4 _ hmem) (lt_irrefl _)
          · intro id hid
            have hperm := CallbackMap.tableIDs_appendEntry_perm s.mCallbackMap k
              (cb, s.mNextSubscriptionID)
            rcases List.mem_append.mp (hperm.mem_iff.mp hid) with hh | hh
            · exact Nat.lt_succ_of_lt (h4 id hh)
            · rcases List.mem_singleton.mp hh with rfl
              exact Nat.lt_succ_self _
      | unsubscribe subID k =>
          intro s h1 h2 h3 h4
          show _ ∧ _ ∧ _ ∧ _
          apply ih (s.unsub subID k).2
          · rw [EventSystem.unsub_mCallbackMap]
            exact CallbackMap.KeysNodup_unsubFrom _ _ _ h1
          · rw [EventSystem.unsub_mCallbackMap]
            exact CallbackMap.NonemptySeqs_unsubFrom _ _ _ h2
          · rw [EventSystem.unsub_mCallbackMap]
            exact List.Nodup.sublist (CallbackMap.tableIDs_unsubFrom_sublist _ _ _) h3
          · intro id hid
            rw [EventSystem.unsub_mCallbackMap] at hid
            rw [EventSystem.unsub_mNextSubscriptionID]
            exact h4 id ((CallbackMap.tableIDs_unsubFrom_sublist _ _ _).subset hid)

/-- Every state reachable from a fresh EventSystem by any interleaving of sub
and unsub calls is well-formed; this is why the well-formedness hypotheses of
the table theorems hold in every state the code can actually produce. -/
theorem reachable_state_wf (ops : List EventOp) :
    CallbackMap.KeysNodup ((runOps ops EventSystem.init).2).mCallbackMap ∧
    CallbackMap.NonemptySeqs ((runOps ops EventSystem.init).2).mCallbackMap ∧
    (CallbackMap.tableIDs ((runOps ops EventSystem.init).2).mCallbackMap).Nodup ∧
    (∀ id ∈ CallbackMap.tableIDs ((runOps ops EventSystem.init).2).mCallbackMap,
      id < ((runOps ops EventSystem.init).2).mNextSubscriptionID) :=
  runOps_state_wf ops EventSystem.init (by decide) (by decide) (by decide) (by decide)

/-! ### Claim theorems -/

/-- Claim C3: pub invokes exactly the callbacks registered for the published
kind, each exactly once, in registration order; a kind with zero
subscriptions is a silent no-op in which no callback fires. -/
theorem C3_pub_fires_registration_order (ops : List (Nat × Nat)) (k : Nat) :
    EventSystem.pub (runSubs ops EventSystem.init).2 k
      = (ops.filter (fun p => p.1 == k)).map (fun p => p.2) ∧
    ((∀ p ∈ ops, p.1 ≠ k) →
      EventSystem.pub (runSubs ops EventSystem.init).2 k = []) := by
  have h := pub_runSubs ops k EventSystem.init
  have hinit : EventSystem.pub EventSystem.init k = [] := rfl
  rw [hinit, List.nil_append] at h
  refine ⟨h, ?_⟩
  intro hnone
  rw [h]
  have hf : ops.filter (fun p => p.1 == k) = [] := by
    apply List.filter_eq_nil_iff.mpr
    intro p hp
    simpa using hnone p hp
  rw [hf]
  rfl

/-- Witness for C3: three registrations over two kinds; publishing kind 1
fires its two callbacks in order, publishing the unsubscribed kind 3 fires
nothing. -/
theorem C3_witness :
    (EventSystem.pub (runSubs [(1, 10), (2, 20), (1, 30)] EventSystem.init).2 1
      = ([(1, 10), (2, 20), (1, 30)].filter (fun p => p.1 == 1)).map (fun p => p.2)) ∧
    EventSystem.pub (runSubs [(1, 10), (2, 20), (1, 30)] EventSystem.init).2 3 = [] :=
  ⟨(C3_pub_fires_registration_order [(1, 10), (2, 20), (1, 30)] 1).1,
   (C3_pub_fires_registration_order [(1, 10), (2, 20), (1, 30)] 3).2 (by decide)⟩

/-- Claim C9: in the checked build, Event narrowing is a checked cast: a
handle whose true kind differs from the requested kind trips the assert
(modelled as none) instead of yielding a corrupted value, and a handle whose
true kind matches is returned unchanged. -/
theorem C9_unpack_checked_cast (e : EventObj) (K : Nat) :
    (e.kind ≠ K → e.unpack K = none) ∧ (e.kind = K → e.unpack K = some e) := by
  constructor
  · intro h; simp [EventObj.unpack, h]
  · intro h; simp [EventObj.unpack, h]

/-- Witness for C9: narrowing a kind-1 instance to kind 2 aborts; narrowing
it to kind 1 returns the instance. -/
theorem C9_witness :
    ((⟨1, 5⟩ : EventObj).unpack 2 = none) ∧
    ((⟨1, 5⟩ : EventObj).unpack 1 = some ⟨1, 5⟩) :=
  ⟨(C9_unpack_checked_cast ⟨1, 5⟩ 2).1 (by decide),
   (C9_unpack_checked_cast ⟨1, 5⟩ 1).2 rfl⟩

/-- Claim C10: when the invoked callbacks do not themselves call sub or
unsub (their state action is the identity), pub leaves the entire
EventSystem state - dispatch table and id counter - unchanged, and its only
effect is invoking the matched callbacks. -/
theorem C10_pub_frame (es : EventSystem) (kind : Nat)
    (act : Nat → EventSystem → EventSystem) (hact : ∀ c s, act c s = s) :
    (EventSystem.pubRun es kind act).2 = es ∧
    (EventSystem.pubRun es kind act).1 = EventSystem.pub es kind := by
  have hfold : ∀ (l : List CallbackEntry) (s : EventSystem),
      l.foldl (fun acc e => act e.1 acc) s = s := by
    intro l
    induction l with
    | nil => intro s; rfl
    | cons h t ih => intro s; rw [List.foldl_cons, hact]; exact ih s
  unfold EventSystem.pubRun
  cases hfk : CallbackMap.findKind es.mCallbackMap kind with
  | none =>
      exact ⟨rfl, by simp [EventSystem.pub, CallbackMap.entriesOf, hfk]⟩
  | some v =>
      exact ⟨hfold v es, by simp [EventSystem.pub, CallbackMap.entriesOf, hfk]⟩

/-- Witness for C10 at a concrete one-entry table with identity callbacks. -/
theorem C10_witness :
    (EventSystem.pubRun ⟨[(1, [(7, 1)])], 2⟩ 1 (fun _ s => s)).2 = ⟨[(1, [(7, 1)])], 2⟩ ∧
    (EventSystem.pubRun ⟨[(1, [(7, 1)])], 2⟩ 1 (fun _ s => s)).1
      = EventSystem.pub ⟨[(1, [(7, 1)])], 2⟩ 1 :=
  C10_pub_frame ⟨[(1, [(7, 1)])], 2⟩ 1 (fun _ s => s) (fun _ _ => rfl)

/-- The ids recorded under one kind form a sublist of all ids of the table. -/
theorem CallbackMap.idsUnder_sublist_tableIDs (m : CallbackMap) (k : Nat) :
    (CallbackMap.idsUnder m k).Sublist (CallbackMap.tableIDs m) := by
  induction m with
  | nil => simp [CallbackMap.idsUnder, CallbackMap.entriesOf_nil, CallbackMap.tableIDs]
  | cons hd tl ih =>
      obtain ⟨k', v⟩ := hd
      rw [CallbackMap.tableIDs_cons]
      by_cases h : k' = k
      · subst h
        have hh : CallbackMap.idsUnder ((k', v) :: tl) k' = v.map (fun e => e.2) := by
          simp [CallbackMap.idsUnder, CallbackMap.entriesOf_cons]
        rw [hh]
        exact List.sublist_append_left _ _
      · have hh : CallbackMap.idsUnder ((k', v) :: tl) k = CallbackMap.idsUnder tl k := by
          simp [CallbackMap.idsUnder, CallbackMap.entriesOf_cons, h]
        rw [hh]
        exact ih.trans (List.sublist_append_right _ _)

/-- Claim C2: on a well-formed dispatch table, unsub(kind, id) removes the
single entry whose id matches from that kind's sequence (at most one entry
can match) and returns true iff an entry was removed; every other kind's
sequence is untouched, and an id issued for a different kind yields false
and leaves the entire table unchanged. -/
theorem C2_unsub_removes_single_entry (m : CallbackMap) (k subID : Nat)
    (hkeys : CallbackMap.KeysNodup m)
    (hne : CallbackMap.NonemptySeqs m)
    (huniq : (CallbackMap.tableIDs m).Nodup) :
    ((CallbackMap.unsubFrom m subID k).1 = true ↔ subID ∈ CallbackMap.idsUnder m k) ∧
    ((CallbackMap.entriesOf m k).countP (fun e => e.2 == subID) ≤ 1) ∧
    (CallbackMap.entriesOf (CallbackMap.unsubFrom m subID k).2 k
      = (CallbackMap.entriesOf m k).filter (fun e => e.2 != subID)) ∧
    (∀ kk, kk ≠ k →
      CallbackMap.entriesOf (CallbackMap.unsubFrom m subID k).2 kk
        = CallbackMap.entriesOf m kk) ∧
    (∀ k', k' ≠ k → subID ∈ CallbackMap.idsUnder m k' →
      CallbackMap.unsubFrom m subID k = (false, m)) := by
  refine ⟨CallbackMap.unsubFrom_fst_true_iff m subID k, ?_, ?_, ?_, ?_⟩
  · have hnd : (CallbackMap.idsUnder m k).Nodup :=
      List.Nodup.sublist (CallbackMap.idsUnder_sublist_tableIDs m k) huniq
    have hcnt : (CallbackMap.entriesOf m k).countP (fun e => e.2 == subID)
        = (CallbackMap.idsUnder m k).count subID := by
      simp [CallbackMap.idsUnder, List.count, List.countP_map]
      rfl
    rw [hcnt]
    exact List.nodup_iff_count_le_one.mp hnd subID
  · have h := CallbackMap.entriesOf_unsubFrom m subID k hkeys k
    simpa using h
  · intro kk hkk
    have h := CallbackMap.entriesOf_unsubFrom m subID k hkeys kk
    simpa [hkk] using h
  · intro k' hk' hmem
    exact CallbackMap.unsubFrom_eq_of_not_mem m subID k hne
      (CallbackMap.not_mem_idsUnder_of_mem_other m k k' subID huniq hk' hmem)

/-- Witness for C2: id 1 was issued for kind 1; unsubscribing it under kind
2 returns false and leaves the two-kind table unchanged. -/
theorem C2_witness :
    CallbackMap.unsubFrom [(1, [(10, 1)]), (2, [(20, 2)])] 1 2
      = (false, [(1, [(10, 1)]), (2, [(20, 2)])]) :=
  (C2_unsub_removes_single_entry [(1, [(10, 1)]), (2, [(20, 2)])] 2 1
      (by decide) (by decide) (by decide)).2.2.2.2 1 (by decide) (by decide)

/-- When every invoked callback leaves the state alone, pubRun returns the
input state: the body of pub itself never writes the table or the counter. -/
theorem EventSystem.pubRun_snd_of_id (es : EventSystem) (kind : Nat)
    (act : Nat → EventSystem → EventSystem) (hact : ∀ c s, act c s = s) :
    (EventSystem.pubRun es kind act).2 = es := by
  have hfold : ∀ (l : List CallbackEntry) (s : EventSystem),
      l.foldl (fun acc e => act e.1 acc) s = s := by
    intro l
    induction l with
    | nil => intro s; rfl
    | cons h t ih => intro s; rw [List.foldl_cons, hact]; exact ih s
  unfold EventSystem.pubRun
  cases hfk : CallbackMap.findKind es.mCallbackMap kind with
  | none => rfl
  | some v => exact hfold v es

/-- The teardown fold preserves the nonempty-sequence invariant. -/
theorem SubscriptionManager.foldUnsub_NonemptySeqs (reg : TagRegistry) :
    ∀ es : EventSystem, CallbackMap.NonemptySeqs es.mCallbackMap →
      CallbackMap.NonemptySeqs
        (reg.foldl (fun acc r => (acc.unsub r.2.2 r.2.1).2) es).mCallbackMap := by
  induction reg with
  | nil => intro es h; simpa using h
  | cons hd tl ih =>
      intro es h
      rw [List.foldl_cons]
      exact ih _ (by
        rw [EventSystem.unsub_mCallbackMap]
        exact CallbackMap.NonemptySeqs_unsubFrom es.mCallbackMap hd.2.2 hd.2.1 h)

/-- Claim C4: the dispatch-table invariant (a kind key is present iff its
callback sequence is non-empty) is preserved by sub, unsub, pub with
non-mutating callbacks, and every SubscriptionManager operation; the empty
sequence left when a kind's last entry is removed is pruned inside that same
unsub call, so no kind can ever map to an empty sequence afterwards. -/
theorem C4_nonempty_invariant_preserved (es : EventSystem) (reg : TagRegistry)
    (kind cb subID tag : Nat)
    (h : CallbackMap.NonemptySeqs es.mCallbackMap) :
    CallbackMap.NonemptySeqs ((es.sub kind cb).2).mCallbackMap ∧
    CallbackMap.NonemptySeqs ((es.unsub subID kind).2).mCallbackMap ∧
    (∀ act, (∀ c s, act c s = s) →
       CallbackMap.NonemptySeqs ((EventSystem.pubRun es kind act).2).mCallbackMap) ∧
    CallbackMap.NonemptySeqs
      ((SubscriptionManager.sub reg es tag kind cb).2.2).mCallbackMap ∧
    CallbackMap.NonemptySeqs
      ((SubscriptionManager.unsub reg es tag).2.2).mCallbackMap ∧
    CallbackMap.NonemptySeqs
      ((SubscriptionManager.ubsubFromAll reg es).2).mCallbackMap ∧
    (∀ kk, CallbackMap.findKind ((es.unsub subID kind).2).mCallbackMap kk ≠ some []) := by
  have hsub : CallbackMap.NonemptySeqs ((es.sub kind cb).2).mCallbackMap :=
    CallbackMap.NonemptySeqs_appendEntry es.mCallbackMap kind (cb, es.mNextSubscriptionID) h
  have hunsub : CallbackMap.NonemptySeqs ((es.unsub subID kind).2).mCallbackMap := by
    rw [EventSystem.unsub_mCallbackMap]
    exact CallbackMap.NonemptySeqs_unsubFrom es.mCallbackMap subID kind h
  refine ⟨hsub, hunsub, ?_, ?_, ?_, ?_, ?_⟩
  · intro act hact
    rw [EventSystem.pubRun_snd_of_id es kind act hact]
    exact h
  · cases hl : SubscriptionManager.lookupTag reg tag with
    | some p => simpa [SubscriptionManager.sub, hl] using h
    | none => simpa [SubscriptionManager.sub, hl] using hsub
  · cases hl : SubscriptionManager.lookupTag reg tag with
    | none => simpa [SubscriptionManager.unsub, hl] using h
    | some p =>
        obtain ⟨k, id⟩ := p
        have hr : CallbackMap.NonemptySeqs ((es.unsub id k).2).mCallbackMap := by
          rw [EventSystem.unsub_mCallbackMap]
          exact CallbackMap.NonemptySeqs_unsubFrom es.mCallbackMap id k h
        by_cases hb : (es.unsub id k).1 <;>
          simpa [SubscriptionManager.unsub, hl, hb] using hr
  · exact SubscriptionManager.foldUnsub_NonemptySeqs reg es h
  · intro kk hsome
    have hmem := CallbackMap.mem_of_findKind_eq_some _ kk [] hsome
    exact hunsub (kk, []) hmem rfl

/-- Witness for C4: a one-entry table; removing the kind's last subscription
prunes the mapping entry, so no kind maps to an empty sequence. -/
theorem C4_witness :
    CallbackMap.NonemptySeqs
      (((⟨[(1, [(10, 1)])], 2⟩ : EventSystem).sub 2 20).2).mCallbackMap ∧
    CallbackMap.NonemptySeqs
      (((⟨[(1, [(10, 1)])], 2⟩ : EventSystem).unsub 1 1).2).mCallbackMap ∧
    CallbackMap.findKind
      (((⟨[(1, [(10, 1)])], 2⟩ : EventSystem).unsub 1 1).2).mCallbackMap 1 ≠ some [] :=
  ⟨(C4_nonempty_invariant_preserved ⟨[(1, [(10, 1)])], 2⟩ [] 2 20 1 0 (by decide)).1,
   (C4_nonempty_invariant_preserved ⟨[(1, [(10, 1)])], 2⟩ [] 1 20 1 0 (by decide)).2.1,
   (C4_nonempty_invariant_preserved ⟨[(1, [(10, 1)])], 2⟩ [] 1 20 1 0
      (by decide)).2.2.2.2.2.2 1⟩

/-- Claim C5: SubscriptionManager teardown (the destructor's ubsubFromAll)
unsubscribes every recorded tag's underlying subscription and clears the
registry, so that afterwards no kind's callback sequence - and hence no
subsequent pub on the underlying EventSystem - carries any of the
subscription ids that were registered through the Manager. -/
theorem C5_teardown_removes_all (reg : TagRegistry) (es : EventSystem)
    (hkeys : CallbackMap.KeysNodup es.mCallbackMap)
    (hcons : ∀ r ∈ reg, CallbackMap.IDOnlyUnder es.mCallbackMap r.2.2 r.2.1) :
    (SubscriptionManager.ubsubFromAll reg es).1 = [] ∧
    ∀ r ∈ reg, ∀ kk,
      r.2.2 ∉ CallbackMap.idsUnder
        ((SubscriptionManager.ubsubFromAll reg es).2).mCallbackMap kk := by
  refine ⟨rfl, ?_⟩
  intro r hr kk hmem
  rcases List.mem_map.mp hmem with ⟨e, he, heq⟩
  cases hfk : CallbackMap.findKind
      ((SubscriptionManager.ubsubFromAll reg es).2).mCallbackMap kk with
  | none =>
      rw [CallbackMap.entriesOf, hfk] at he
      simp at he
  | some v =>
      rw [CallbackMap.entriesOf, hfk] at he
      simp only [Option.getD_some] at he
      have hv := CallbackMap.mem_of_findKind_eq_some _ kk v hfk
      exact SubscriptionManager.foldUnsub_removes_all reg es hkeys hcons r hr
        (kk, v) hv e he heq

/-- Witness for C5: two manager-owned subscriptions under two kinds; after
teardown neither recorded id remains anywhere in the table. -/
theorem C5_witness :
    (SubscriptionManager.ubsubFromAll [(0, 1, 1), (1, 2, 2)]
        ⟨[(1, [(10, 1)]), (2, [(20, 2)])], 3⟩).1 = [] ∧
    (1 : Nat) ∉ CallbackMap.idsUnder
      ((SubscriptionManager.ubsubFromAll [(0, 1, 1), (1, 2, 2)]
          ⟨[(1, [(10, 1)]), (2, [(20, 2)])], 3⟩).2).mCallbackMap 1 :=
  ⟨(C5_teardown_removes_all [(0, 1, 1), (1, 2, 2)]
      ⟨[(1, [(10, 1)]), (2, [(20, 2)])], 3⟩ (by decide) (by decide)).1,
   (C5_teardown_removes_all [(0, 1, 1), (1, 2, 2)]
      ⟨[(1, [(10, 1)]), (2, [(20, 2)])], 3⟩ (by decide) (by decide)).2
     (0, 1, 1) (by decide) 1⟩

/-- Claim C6: SubscriptionManager::sub refuses an already-registered tag, with
no mutation of the registry, the dispatch table or the id counter; for a
fresh tag it delegates to the Subscriber's sub, records (kind, id) against
the tag and returns true; a second sub with the same tag (and any kind or
callback) returns false, changes nothing, and the original registration
still fires on pub. -/
theorem C6_mgr_sub_duplicate_guard (reg : TagRegistry) (es : EventSystem)
    (tag kind cb : Nat) :
    ((SubscriptionManager.lookupTag reg tag).isSome →
       SubscriptionManager.sub reg es tag kind cb = (false, reg, es)) ∧
    (SubscriptionManager.lookupTag reg tag = none →
       SubscriptionManager.sub reg es tag kind cb
         = (true, reg ++ [(tag, kind, es.mNextSubscriptionID)], (es.sub kind cb).2)) ∧
    (SubscriptionManager.lookupTag reg tag = none → ∀ kind2 cb2,
       SubscriptionManager.sub
           (SubscriptionManager.sub reg es tag kind cb).2.1
           (SubscriptionManager.sub reg es tag kind cb).2.2 tag kind2 cb2
         = (false, (SubscriptionManager.sub reg es tag kind cb).2.1,
                   (SubscriptionManager.sub reg es tag kind cb).2.2) ∧
       cb ∈ EventSystem.pub (SubscriptionManager.sub reg es tag kind cb).2.2 kind) := by
  refine ⟨?_, ?_, ?_⟩
  · intro h
    rcases Option.isSome_iff_exists.mp h with ⟨p, hp⟩
    simp [SubscriptionManager.sub, hp]
  · intro h
    simp [SubscriptionManager.sub, h, EventSystem.sub]
  · intro h kind2 cb2
    have hfirst : SubscriptionManager.sub reg es tag kind cb
        = (true, reg ++ [(tag, kind, es.mNextSubscriptionID)], (es.sub kind cb).2) := by
      simp [SubscriptionManager.sub, h, EventSystem.sub]
    rw [hfirst]
    have hl1 : SubscriptionManager.lookupTag
        (reg ++ [(tag, kind, es.mNextSubscriptionID)]) tag
        = some (kind, es.mNextSubscriptionID) :=
      SubscriptionManager.lookupTag_append_some reg tag kind es.mNextSubscriptionID h
    constructor
    · simp [SubscriptionManager.sub, hl1]
    · simp [EventSystem.pub, EventSystem.sub, CallbackMap.entriesOf_appendEntry]

/-- Witness for C6: registering tag 0 twice on a fresh system; the second
call is refused without mutation and the first callback still fires. -/
theorem C6_witness :
    (SubscriptionManager.sub
        (SubscriptionManager.sub [] EventSystem.init 0 1 10).2.1
        (SubscriptionManager.sub [] EventSystem.init 0 1 10).2.2 0 2 20
      = (false, (SubscriptionManager.sub [] EventSystem.init 0 1 10).2.1,
                (SubscriptionManager.sub [] EventSystem.init 0 1 10).2.2)) ∧
    10 ∈ EventSystem.pub (SubscriptionManager.sub [] EventSystem.init 0 1 10).2.2 1 :=
  (C6_mgr_sub_duplicate_guard [] EventSystem.init 0 1 10).2.2 rfl 2 20

/-- Claim C7: SubscriptionManager::unsub returns false for an unknown tag; for
a registered tag it delegates to the Subscriber's unsub with the recorded
(kind, id), erasing the tag's record and returning true on success while
leaving the record intact and returning false on underlying failure;
consequently two successive unsub calls for a live subscription return true
then false, the second performing no mutation. -/
theorem C7_mgr_unsub_twice (reg : TagRegistry) (es : EventSystem) (tag : Nat)
    (htags : (reg.map (fun r => r.1)).Nodup) :
    (SubscriptionManager.lookupTag reg tag = none →
       SubscriptionManager.unsub reg es tag = (false, reg, es)) ∧
    (∀ k id, SubscriptionManager.lookupTag reg tag = some (k, id) →
       ((es.unsub id k).1 = true →
          SubscriptionManager.unsub reg es tag
            = (true, SubscriptionManager.eraseTag reg tag, (es.unsub id k).2)) ∧
       ((es.unsub id k).1 = false →
          (SubscriptionManager.unsub reg es tag).1 = false ∧
          (SubscriptionManager.unsub reg es tag).2.1 = reg)) ∧
    (∀ k id, SubscriptionManager.lookupTag reg tag = some (k, id) →
       id ∈ CallbackMap.idsUnder es.mCallbackMap k →
       (SubscriptionManager.unsub reg es tag).1 = true ∧
       SubscriptionManager.unsub
           (SubscriptionManager.unsub reg es tag).2.1
           (SubscriptionManager.unsub reg es tag).2.2 tag
         = (false, (SubscriptionManager.unsub reg es tag).2.1,
                   (SubscriptionManager.unsub reg es tag).2.2)) := by
  refine ⟨?_, ?_, ?_⟩
  · intro h
    simp [SubscriptionManager.unsub, h]
  · intro k id hl
    constructor
    · intro hb
      simp [SubscriptionManager.unsub, hl, hb]
    · intro hb
      simp [SubscriptionManager.unsub, hl, hb]
  · intro k id hl hmem
    have hb : (es.unsub id k).1 = true :=
      (CallbackMap.unsubFrom_fst_true_iff es.mCallbackMap id k).mpr hmem
    have hfirst : SubscriptionManager.unsub reg es tag
        = (true, SubscriptionManager.eraseTag reg tag, (es.unsub id k).2) := by
      simp [SubscriptionManager.unsub, hl, hb]
    refine ⟨by rw [hfirst], ?_⟩
    rw [hfirst]
    have hl2 : SubscriptionManager.lookupTag
        (SubscriptionManager.eraseTag reg tag) tag = none :=
      SubscriptionManager.lookupTag_eraseTag_self reg tag htags
    simp [SubscriptionManager.unsub, hl2]

/-- Witness for C7: one registered tag over a one-entry table; unsub succeeds
once and the repeated call returns false without mutating anything. -/
theorem C7_witness :
    ((SubscriptionManager.unsub [(0, 1, 1)] ⟨[(1, [(10, 1)])], 2⟩ 0).1
        = true) ∧
    SubscriptionManager.unsub
        (SubscriptionManager.unsub [(0, 1, 1)] ⟨[(1, [(10, 1)])], 2⟩ 0).2.1
        (SubscriptionManager.unsub [(0, 1, 1)] ⟨[(1, [(10, 1)])], 2⟩ 0).2.2 0
      = (false,
         (SubscriptionManager.unsub [(0, 1, 1)] ⟨[(1, [(10, 1)])], 2⟩ 0).2.1,
         (SubscriptionManager.unsub [(0, 1, 1)] ⟨[(1, [(10, 1)])], 2⟩ 0).2.2) :=
  (C7_mgr_unsub_twice [(0, 1, 1)] ⟨[(1, [(10, 1)])], 2⟩ 0
      (by decide)).2.2 1 1 rfl (by decide)

/-- Counterexample for C8 as stated: the SubscriptionManager offers no
unsubscription that takes the caller's expected kind - its only unsub takes
a tag alone.  At a state where tag 0's recorded kind is 1 while the caller
expects kind 2 (the kinds disagree, 1 differing from 2), the Manager's
unsubscription for that tag nevertheless returns true and mutates the tag
registry, where the claim demands false and no mutation. -/
theorem C8_counterexample :
    (SubscriptionManager.unsub [(0, 1, 5)] ⟨[(1, [(77, 5)])], 6⟩ 0).1 = true ∧
    (SubscriptionManager.unsub [(0, 1, 5)] ⟨[(1, [(77, 5)])], 6⟩ 0).2.1 ≠ [(0, 1, 5)] ∧
    (1 : Nat) ≠ 2 := by decide

/-- Claim C8 (amended): the kind-checked unsubscription is offered by the
EventSystem Subscriber rather than the SubscriptionManager: the templated
unsub takes the caller's stated kind, and for every id issued under a
different kind (on a well-formed table) it returns false and performs no
mutation of the dispatch table. -/
theorem C8_typechecked_unsub_on_subscriber (es : EventSystem)
    (subID statedKind recordedKind : Nat)
    (hne : CallbackMap.NonemptySeqs es.mCallbackMap)
    (huniq : (CallbackMap.tableIDs es.mCallbackMap).Nodup)
    (hrec : subID ∈ CallbackMap.idsUnder es.mCallbackMap recordedKind)
    (hdis : recordedKind ≠ statedKind) :
    es.unsub subID statedKind = (false, es) := by
  have hnm : subID ∉ CallbackMap.idsUnder es.mCallbackMap statedKind :=
    CallbackMap.not_mem_idsUnder_of_mem_other es.mCallbackMap statedKind recordedKind
      subID huniq hdis hrec
  have heq := CallbackMap.unsubFrom_eq_of_not_mem es.mCallbackMap subID statedKind hne hnm
  unfold EventSystem.unsub
  rw [heq]

/-- Witness for C8 (amended): id 5 was issued under kind 1; unsubscribing it
while stating kind 2 returns false and leaves the system unchanged. -/
theorem C8_witness :
    EventSystem.unsub ⟨[(1, [(77, 5)])], 6⟩ 5 2 = (false, ⟨[(1, [(77, 5)])], 6⟩) :=
  C8_typechecked_unsub_on_subscriber ⟨[(1, [(77, 5)])], 6⟩ 5 2 1
    (by decide) (by decide) (by decide) (by decide)
